import Mathlib

/-!
Verification development for the test-analyzer repository.

The Python sources under src/test_analyzer are shallowly embedded below:
pure functions become Lean functions, Python str values are modelled as
List Char, Python dicts as association lists, machine reals that the
claims touch as rationals, and fallible code returns Except.  Each
embedded definition is named after the source function it models and a
comment records the file it comes from.
-/

/-! ## String helpers (Python str operations over List Char) -/

/-- Python str.lower over a list of characters. -/
def pyLower (s : List Char) : List Char := s.map Char.toLower

/-- Membership of a marker as substring, Python `marker in s` . -/
def containsSub (pat : List Char) : List Char → Bool
  | [] => pat.isEmpty
  | c :: rest => pat.isPrefixOf (c :: rest) || containsSub pat rest

/-! ## File Role Classifier: src/test_analyzer/base/commits.py, is_test_file / is_prod_file -/

/-- is_test_file from src/test_analyzer/base/commits.py.
Patterns, checked on the lowercased path string:
the path must end in ".py"; then any path starting with "tests/" or
containing "/tests/" is a test file; then any path starting with
"test_" (note: the WHOLE path string, not its basename) or ending in
"_test.py" or "_spec.py" is a test file; otherwise not. -/
def is_test_file (path : List Char) : Bool :=
  let lower := pyLower path
  if !((".py".toList).isSuffixOf lower) then false
  else if (("tests/".toList).isPrefixOf lower) || containsSub ("/tests/".toList) lower then true
  else if (("test_".toList).isPrefixOf lower)
      || (("_test.py".toList).isSuffixOf lower)
      || (("_spec.py".toList).isSuffixOf lower) then true
  else false

/-- is_prod_file from src/test_analyzer/base/commits.py. -/
def is_prod_file (path : List Char) : Bool :=
  ((".py".toList).isSuffixOf (pyLower path)) && !(is_test_file path)

/-! ## Dates

Python datetime values are modelled by a year-month-day record plus the
second within the day; comparison is lexicographic, as for datetime. -/

structure Date where
  year : Nat
  month : Nat
  day : Nat
  tsec : Nat
deriving DecidableEq, Repr

/-- Lexicographic order on dates, as datetime comparison. -/
def Date.Le (a b : Date) : Prop :=
  a.year < b.year ∨ (a.year = b.year ∧ (a.month < b.month ∨ (a.month = b.month ∧
    (a.day < b.day ∨ (a.day = b.day ∧ a.tsec ≤ b.tsec)))))

instance : DecidableRel Date.Le := fun a b => by unfold Date.Le; infer_instance

instance : IsTotal Date Date.Le where
  total a b := by unfold Date.Le; omega

instance : IsTrans Date Date.Le where
  trans a b c := by unfold Date.Le; omega

/-- A date produced by datetime has its month in 1..12. -/
def ValidDate (d : Date) : Prop := 1 ≤ d.month ∧ d.month ≤ 12

instance : DecidablePred ValidDate := fun d => by unfold ValidDate; infer_instance

/-- The "%Y-%m" period string of a date, modelled by a month index: strings
of the form YYYY-MM compare (and sort) exactly like these indices. -/
def monthKey (d : Date) : Nat := d.year * 12 + (d.month - 1)

/-- The "%Y" period string of a date, modelled by the year number. -/
def yearKey (d : Date) : Nat := d.year

/-! ## Snapshot aggregation: src/test_analyzer/base/commits.py,
aggregate_snapshots_monthly / aggregate_snapshots_yearly -/

/-- One element of the raw_stats input of the snapshot aggregators, as
produced by file_count_stats. -/
structure SnapRecord where
  date : Date
  prod_files : Nat
  test_files : Nat
deriving DecidableEq, Repr

/-- One output row: the "period" key (a month index or a year) plus the
two file counters. -/
structure SnapRow where
  period : Nat
  prod_files : Nat
  test_files : Nat
deriving DecidableEq, Repr

/-- Order on records by date only; Python sorted(raw, key=date) is the
stable sort by this relation, which insertionSort implements. -/
def snapRecLe (a b : SnapRecord) : Prop := Date.Le a.date b.date

instance : DecidableRel snapRecLe := fun a b => by unfold snapRecLe; infer_instance

instance : IsTotal SnapRecord snapRecLe where
  total a b := IsTotal.total (r := Date.Le) a.date b.date

instance : IsTrans SnapRecord snapRecLe where
  trans a b c := IsTrans.trans (r := Date.Le) a.date b.date c.date

/-- sorted(raw_stats, key=lambda x: x[date]). -/
def sortByDate (l : List SnapRecord) : List SnapRecord := l.insertionSort snapRecLe

/-- The per-period loop shared by both snapshot aggregators.  For each
period p it consumes the items of that period from the front of the
(sorted) item list -- the while loop advancing idx -- recording each into
the last_snapshot dict under key p (modelled by consing onto an
association list, so a lookup finds the most recent write), then emits
the row for p from last_snapshot.get(p), with a zero row when absent. -/
def snapLoop (keyOf : Date → Nat) : List Nat → List SnapRecord → List (Nat × SnapRecord) → List SnapRow
  | [], _, _ => []
  | p :: rest, items, lastSnap =>
    let inP := items.takeWhile (fun r => keyOf r.date == p)
    let rem := items.dropWhile (fun r => keyOf r.date == p)
    let lastSnap' := match inP.getLast? with
      | some r => (p, r) :: lastSnap
      | none => lastSnap
    (match lastSnap'.lookup p with
      | some r => { period := p, prod_files := r.prod_files, test_files := r.test_files }
      | none => { period := p, prod_files := 0, test_files := 0 }) :: snapLoop keyOf rest rem lastSnap'

instance : Inhabited Date := ⟨⟨0, 0, 0, 0⟩⟩

instance : Inhabited SnapRecord := ⟨⟨default, 0, 0⟩⟩

/-- aggregate_snapshots_monthly from src/test_analyzer/base/commits.py.
The generated period list (first-of-month datetimes stepped month by
month from the first to the last date) is the contiguous range of month
indices. -/
def aggregate_snapshots_monthly (raw : List SnapRecord) : List SnapRow :=
  match sortByDate raw with
  | [] => []
  | x :: xs =>
    snapLoop monthKey
      (List.range' (monthKey x.date)
        (monthKey (x :: xs).getLastI.date + 1 - monthKey x.date))
      (x :: xs) []

/-- aggregate_snapshots_yearly from src/test_analyzer/base/commits.py.
Periods are range(first.year, last.year + 1). -/
def aggregate_snapshots_yearly (raw : List SnapRecord) : List SnapRow :=
  match sortByDate raw with
  | [] => []
  | x :: xs =>
    snapLoop yearKey
      (List.range' (yearKey x.date)
        (yearKey (x :: xs).getLastI.date + 1 - yearKey x.date))
      (x :: xs) []

/-- Specification-level description of one output row of snapshot
aggregation: the chronologically last record whose date falls in period
p, or an explicit zero row when the period has no record. -/
def keyRow (keyOf : Date → Nat) (items : List SnapRecord) (p : Nat) : SnapRow :=
  match (items.filter (fun r => keyOf r.date == p)).getLast? with
  | some r => { period := p, prod_files := r.prod_files, test_files := r.test_files }
  | none => { period := p, prod_files := 0, test_files := 0 }

/-- Records in January and March 2021 only, none in February. -/
def exJanMar : List SnapRecord :=
  [ { date := ⟨2021, 1, 15, 0⟩, prod_files := 5, test_files := 3 },
    { date := ⟨2021, 3, 10, 0⟩, prod_files := 7, test_files := 4 } ]

/-! ## Additive aggregation: src/test_analyzer/base/commits.py,
aggregate_stats_monthly / aggregate_stats_yearly -/

/-- One record of raw_stats for the additive aggregators: the date plus
a dict of metric values (Python int and float values are modelled by
rationals). -/
structure RawStat where
  date : Date
  metrics : List (List Char × ℚ)
deriving DecidableEq

/-- set(item.keys()) - set with the date key excluded; the date lives in
its own field here, so the metric keys are exactly these. -/
def keysOf (r : RawStat) : List (List Char) := r.metrics.map Prod.fst

/-- Python set equality of two key sets. -/
def keySetEq (a b : List (List Char)) : Bool :=
  a.all (fun k => b.contains k) && b.all (fun k => a.contains k)

/-- item[k] on a metrics dict.  Validation guarantees the key is present;
an absent key defaults to 0 here, a case unreachable after validation. -/
def getMetric (m : List (List Char × ℚ)) (k : List Char) : ℚ :=
  (m.lookup k).getD 0

/-- The defaultdict initial value: a dict with a zero for every expected
metric key. -/
def zeroMetrics (expected : List (List Char)) : List (List Char × ℚ) :=
  expected.map (fun k => (k, 0))

/-- One pass of the inner loop: agg[period][k] += item[k] for every
metric key of the row (the row's keys are exactly the expected keys). -/
def addMetrics (cur : List (List Char × ℚ)) (item : RawStat) : List (List Char × ℚ) :=
  cur.map (fun e => (e.1, e.2 + getMetric item.metrics e.1))

/-- Overwriting dict update agg[p] = row (insertion order preserved). -/
def dictSet (agg : List (Nat × List (List Char × ℚ))) (p : Nat)
    (row : List (List Char × ℚ)) : List (Nat × List (List Char × ℚ)) :=
  agg.map (fun e => if e.1 = p then (p, row) else e)

/-- The aggregation loop over raw_stats with defaultdict semantics: a
period already present is updated in place, a new period is appended. -/
def foldAgg (keyOf : Date → Nat) (expected : List (List Char)) :
    List RawStat → List (Nat × List (List Char × ℚ)) → List (Nat × List (List Char × ℚ))
  | [], agg => agg
  | item :: rest, agg =>
    match agg.lookup (keyOf item.date) with
    | some cur => foldAgg keyOf expected rest
        (dictSet agg (keyOf item.date) (addMetrics cur item))
    | none => foldAgg keyOf expected rest
        (agg ++ [(keyOf item.date, addMetrics (zeroMetrics expected) item)])

/-- One output row of additive aggregation. -/
structure AggRow where
  period : Nat
  metrics : List (List Char × ℚ)
deriving DecidableEq

/-- Order used by sorted(agg.items()): keys are distinct, so Python
tuple comparison reduces to comparison of the period keys. -/
def aggLe (a b : Nat × List (List Char × ℚ)) : Prop := a.1 ≤ b.1

instance : DecidableRel aggLe := fun a b => by unfold aggLe; infer_instance

instance : IsTotal (Nat × List (List Char × ℚ)) aggLe where
  total a b := by unfold aggLe; omega

instance : IsTrans (Nat × List (List Char × ℚ)) aggLe where
  trans a b c := by unfold aggLe; omega

/-- sorted(agg.items()). -/
def sortAgg (l : List (Nat × List (List Char × ℚ))) : List (Nat × List (List Char × ℚ)) :=
  l.insertionSort aggLe

/-- The metric-key set of the first record, against which all records
are validated. -/
def expectedOf : List RawStat → List (List Char)
  | [] => []
  | first :: _ => keysOf first

/-- aggregate_stats_monthly from src/test_analyzer/base/commits.py:
validate that every record has the first record's metric-key set (a
mismatch raises ValueError and nothing is produced), then group by month
key, summing each metric, and emit rows sorted by period. -/
def aggregate_stats_monthly (raw : List RawStat) : Except (List Char) (List AggRow) :=
  match raw with
  | [] => .ok []
  | first :: rest =>
    if (first :: rest).all (fun it => keySetEq (keysOf it) (keysOf first)) then
      .ok ((sortAgg (foldAgg monthKey (keysOf first) (first :: rest) [])).map
        (fun e => { period := e.1, metrics := e.2 }))
    else .error ("Inconsistent metric keys in raw_stats".toList)

/-- aggregate_stats_yearly from src/test_analyzer/base/commits.py. -/
def aggregate_stats_yearly (raw : List RawStat) : Except (List Char) (List AggRow) :=
  match raw with
  | [] => .ok []
  | first :: rest =>
    if (first :: rest).all (fun it => keySetEq (keysOf it) (keysOf first)) then
      .ok ((sortAgg (foldAgg yearKey (keysOf first) (first :: rest) [])).map
        (fun e => { period := e.1, metrics := e.2 }))
    else .error ("Inconsistent metric keys in raw_stats".toList)

/-- foldl of the inner loop over a list of records. -/
def sumInto (cur : List (List Char × ℚ)) (l : List RawStat) : List (List Char × ℚ) :=
  l.foldl addMetrics cur

/-- One record with keys a,b and one with keys a,b,c. -/
def exMismatch : List RawStat :=
  [ { date := ⟨2021, 1, 5, 0⟩, metrics := [("a".toList, 1), ("b".toList, 2)] },
    { date := ⟨2021, 1, 6, 0⟩, metrics := [("a".toList, 1), ("b".toList, 2), ("c".toList, 3)] } ]

/-- Two records in the same month (January 2021). -/
def exSameMonth : List RawStat :=
  [ { date := ⟨2021, 1, 5, 0⟩,
      metrics := [("code_lines".toList, 10), ("test_lines".toList, 5)] },
    { date := ⟨2021, 1, 20, 0⟩,
      metrics := [("code_lines".toList, 3), ("test_lines".toList, 7)] } ]

/-- The expected single output row for exSameMonth. -/
def exSameMonthRow : AggRow :=
  { period := 2021 * 12 + 0,
    metrics := [("code_lines".toList, 13), ("test_lines".toList, 12)] }

deriving instance DecidableEq for Except

/-! ## os.path.basename and rounding helpers -/

/-- os.path.basename: the part of the path after the last slash. -/
def basename (p : List Char) : List Char :=
  p.foldl (fun acc c => if c = '/' then [] else acc ++ [c]) []

/-- Round to the nearest integer, ties to even: the rounding of Python
round on the values the claims touch. -/
def roundHalfEven (q : ℚ) : ℤ :=
  if q - ⌊q⌋ < 1 / 2 then ⌊q⌋
  else if q - ⌊q⌋ > 1 / 2 then ⌊q⌋ + 1
  else if ⌊q⌋ % 2 = 0 then ⌊q⌋ else ⌊q⌋ + 1

/-- round(q, d): Python rounding to d decimal places (reals modelled by
rationals). -/
def roundTo (d : Nat) (q : ℚ) : ℚ := (roundHalfEven (q * 10 ^ d) : ℚ) / 10 ^ d

/-! ## analyze_tests_local: src/test_analyzer/analysis.py -/

/-- A file met by the os.walk of analyze_tests_local: its name and its
line count, or none when opening or reading it raises OSError or
UnicodeDecodeError. -/
structure LocalFile where
  name : List Char
  lines : Option Nat
deriving DecidableEq

/-- The one Python exception kind the embedding needs: the NameError
raised by the except handler of analyze_tests_local, whose message
f-string references the undefined names filepath and e. -/
inductive PyError where
  | nameError
deriving DecidableEq

/-- The returned dict of analyze_tests_local. -/
structure LocalResult where
  num_test_files : Nat
  avg_test_file_lines : ℚ
deriving DecidableEq

/-- The reading loop of analyze_tests_local.  A readable file adds its
line count; an unreadable file enters the except handler, which itself
raises NameError (unbound filepath / e), aborting the whole call. -/
def readLinesLoop : List LocalFile → Nat → Except PyError Nat
  | [], total => .ok total
  | f :: rest, total =>
    match f.lines with
    | some n => readLinesLoop rest (total + n)
    | none => .error .nameError

/-- analyze_tests_local from src/test_analyzer/analysis.py: collect the
files named test_*.py, then sum their line counts and average. -/
def analyze_tests_local (files : List LocalFile) : Except PyError LocalResult :=
  let test_files := files.filter (fun f =>
    ("test_".toList).isPrefixOf f.name && (".py".toList).isSuffixOf f.name)
  match readLinesLoop test_files 0 with
  | .error e => .error e
  | .ok total_lines =>
    .ok { num_test_files := test_files.length,
          avg_test_file_lines :=
            if test_files.length = 0 then 0
            else roundTo 1 ((total_lines : ℚ) / test_files.length) }

/-! ## Delay calculator: src/test_analyzer/base/ast_metrics.py,
compute_test_delay -/

/-- One commit record: committed_date (seconds; datetime differences
depend only on these) and the touched paths of commit.stats.files.  The
embedded function receives commits oldest first, as iter_commits with
reverse=True yields them. -/
structure Commit where
  ts : Int
  files : List (List Char)
deriving DecidableEq

/-- dict.setdefault(k, v): keep the stored value, append when absent. -/
def setdefault (m : List (List Char × Int)) (k : List Char) (v : Int) :
    List (List Char × Int) :=
  match m.lookup k with
  | some _ => m
  | none => m ++ [(k, v)]

/-- First-seen dates of production paths (endswith .py, case-sensitive
here as in the source, and not a test file). -/
def prod_dates (commits : List Commit) : List (List Char × Int) :=
  commits.foldl (fun m c =>
    c.files.foldl (fun m2 path =>
      if (".py".toList).isSuffixOf path && !(is_test_file path) then setdefault m2 path c.ts
      else m2) m) []

/-- First-seen dates of test paths. -/
def test_dates (commits : List Commit) : List (List Char × Int) :=
  commits.foldl (fun m c =>
    c.files.foldl (fun m2 path =>
      if is_test_file path then setdefault m2 path c.ts else m2) m) []

/-- The production file name paired with a test file base name: strip a
test_ prefix, or replace a _test.py suffix by .py; otherwise skip. -/
def prodNameOf (base : List Char) : Option (List Char) :=
  if ("test_".toList).isPrefixOf base then some (base.drop 5)
  else if ("_test.py".toList).isSuffixOf base then
    some (base.take (base.length - 8) ++ ".py".toList)
  else none

/-- (tdate - pdate).days of the timedelta between two timestamps. -/
def deltaDays (t p : Int) : Int := Int.fdiv (t - p) 86400

/-- The inner scan for one test path: the first production path with
the matching base name wins (break); unmatched test paths contribute
nothing. -/
def matchedDelta (pd : List (List Char × Int)) (tp : List Char × Int) : Option Int :=
  match prodNameOf (basename tp.1) with
  | none => none
  | some pn =>
    match pd.find? (fun e => basename e.1 == pn) with
    | none => none
    | some e => some (deltaDays tp.2 e.2)

/-- The delays loop: append only the non-negative deltas. -/
def delaysLoop (pd : List (List Char × Int)) : List (List Char × Int) → List Int → List Int
  | [], acc => acc
  | tp :: rest, acc =>
    match matchedDelta pd tp with
    | none => delaysLoop pd rest acc
    | some d =>
      if 0 ≤ d then delaysLoop pd rest (acc ++ [d])
      else delaysLoop pd rest acc

/-- The returned dict of compute_test_delay. -/
structure DelayResult where
  avg_delay_days : Option ℚ
  delay_count : Nat
deriving DecidableEq

/-- compute_test_delay from src/test_analyzer/base/ast_metrics.py. -/
def compute_test_delay (commits : List Commit) : DelayResult :=
  let pd := prod_dates commits
  let td := test_dates commits
  let delays := delaysLoop pd td []
  { avg_delay_days :=
      if delays = [] then none
      else some (roundTo 2 ((delays.sum : ℚ) / delays.length)),
    delay_count := delays.length }

/-- The non-negative matched deltas, spec-level form. -/
def validDeltas (commits : List Commit) : List Int :=
  ((test_dates commits).filterMap (matchedDelta (prod_dates commits))).filter
    (fun d => decide (0 ≤ d))

/-! ## Python AST: src/test_analyzer/base/ast_metrics.py

Only the node kinds the embedded functions inspect are distinguished;
all literal constants collapse to one constructor (ast.Constant and its
aliases NameConstant, Num, Str, Bytes), and every other expression or
statement kind keeps only its child nodes, which is all ast.walk needs. -/

/-- import alias: name with optional asname. -/
structure PyAlias where
  nm : List Char
  asname : Option (List Char)
deriving DecidableEq

inductive PyNode where
  | constant : PyNode
  | name (id : List Char) : PyNode
  | attribute (value : PyNode) (attr : List Char) : PyNode
  | call (func : PyNode) (args : List PyNode)
      (keywords : List (Option (List Char) × PyNode)) : PyNode
  | otherExpr (children : List PyNode) : PyNode
  | functionDef (nm : List Char) (args : List (List Char)) (body : List PyNode) : PyNode
  | asyncFunctionDef (nm : List Char) (args : List (List Char)) (body : List PyNode) : PyNode
  | classDef (nm : List Char) (body : List PyNode) : PyNode
  | ret (value : Option PyNode) : PyNode
  | passStmt : PyNode
  | assign (targets : List PyNode) (value : PyNode) : PyNode
  | exprStmt (value : PyNode) : PyNode
  | importStmt (names : List PyAlias) : PyNode
  | importFrom (module : Option (List Char)) (names : List PyAlias) : PyNode
  | otherStmt (children : List PyNode) : PyNode

mutual

/-- ast.walk: every node of the subtree, the node itself included.  The
source iterates in breadth-first order; the counters summed over the
nodes do not depend on the order, so a preorder listing is used. -/
def walkNode : PyNode → List PyNode
  | .constant => [.constant]
  | .name s => [.name s]
  | .attribute v a => .attribute v a :: walkNode v
  | .call f args kws => .call f args kws :: (walkNode f ++ (walkList args ++ walkKws kws))
  | .otherExpr cs => .otherExpr cs :: walkList cs
  | .functionDef n a b => .functionDef n a b :: walkList b
  | .asyncFunctionDef n a b => .asyncFunctionDef n a b :: walkList b
  | .classDef n b => .classDef n b :: walkList b
  | .ret v => .ret v :: walkOpt v
  | .passStmt => [.passStmt]
  | .assign ts v => .assign ts v :: (walkList ts ++ walkNode v)
  | .exprStmt v => .exprStmt v :: walkNode v
  | .importStmt ns => [.importStmt ns]
  | .importFrom m ns => [.importFrom m ns]
  | .otherStmt cs => .otherStmt cs :: walkList cs

def walkList : List PyNode → List PyNode
  | [] => []
  | n :: rest => walkNode n ++ walkList rest

def walkKws : List (Option (List Char) × PyNode) → List PyNode
  | [] => []
  | kw :: rest => walkNode kw.2 ++ walkKws rest

def walkOpt : Option PyNode → List PyNode
  | none => []
  | some v => walkNode v

end

/-- The creator vocabulary _MOCK_CREATORS. -/
def _MOCK_CREATORS : List (List Char) :=
  [ "mock".toList, "magicmock".toList, "asynctestmock".toList,
    "asynctestmagicmock".toList, "asyncmock".toList, "autospec".toList,
    "create_autospec".toList, "patch".toList ]

/-- _FAKE_MARKERS. -/
def _FAKE_MARKERS : List (List Char) := ["fake".toList]

/-- _STUB_MARKERS. -/
def _STUB_MARKERS : List (List Char) := ["stub".toList]

/-- _DUMMY_MARKERS. -/
def _DUMMY_MARKERS : List (List Char) := ["dummy".toList, "placeholder".toList, "unused".toList]

/-- _name from src/test_analyzer/base/ast_metrics.py: lowercased name of
a Name or Attribute node, empty otherwise. -/
def _name : PyNode → List Char
  | .name id => pyLower id
  | .attribute _ attr => pyLower attr
  | _ => []

/-- any(marker in s.lower() for marker in markers). -/
def markerIn (markers : List (List Char)) (s : List Char) : Bool :=
  markers.any (fun m => containsSub m (pyLower s))

/-- _has_constant_return from src/test_analyzer/base/ast_metrics.py:
every Return must return a literal constant, nested definitions and
Pass are skipped, anything else disqualifies. -/
def has_constant_return : List PyNode → Bool
  | [] => true
  | stmt :: rest =>
    match stmt with
    | .ret v =>
      match v with
      | some .constant => has_constant_return rest
      | _ => false
    | .functionDef _ _ _ => has_constant_return rest
    | .asyncFunctionDef _ _ _ => has_constant_return rest
    | .classDef _ _ => has_constant_return rest
    | .passStmt => has_constant_return rest
    | _ => false

/-- The per-statement rule of the constant-return check, as the claim
states it: a Return of a literal constant, a nested definition, or a
Pass is acceptable; any other statement disqualifies. -/
def stmtOkConstRet : PyNode → Bool
  | .ret v =>
    match v with
    | some .constant => true
    | _ => false
  | .functionDef _ _ _ => true
  | .asyncFunctionDef _ _ _ => true
  | .classDef _ _ => true
  | .passStmt => true
  | _ => false

/-- _count_alias_imports from src/test_analyzer/base/ast_metrics.py:
aliases of the mocking modules bound by the top-level imports.  Dict
assignment overwrites, so a later binding shadows an earlier one: the
list is built by prepending and read by first match. -/
def _count_alias_imports (body : List PyNode) : List (List Char × List Char) :=
  body.foldl (fun am node =>
    match node with
    | .importFrom m ns =>
      if pyLower (m.getD []) == "unittest.mock".toList
          || pyLower (m.getD []) == "mock".toList then
        ns.foldl (fun am2 al => (al.asname.getD al.nm, pyLower al.nm) :: am2) am
      else am
    | .importStmt ns =>
      ns.foldl (fun am2 al =>
        if pyLower al.nm == "unittest.mock".toList || pyLower al.nm == "mock".toList then
          (al.asname.getD al.nm, pyLower al.nm) :: am2
        else am2) am
    | _ => am) []

/-- The five counters returned by detect_test_doubles. -/
structure DoubleCounts where
  mocks : Nat
  spies : Nat
  stubs : Nat
  fakes : Nat
  dummies : Nat
deriving DecidableEq, Repr

/-- any keyword argument literally named wraps (case-insensitive). -/
def hasWrapsKw (kws : List (Option (List Char) × PyNode)) : Bool :=
  kws.any (fun kw =>
    match kw.1 with
    | some a => pyLower a == "wraps".toList
    | none => false)

def isConstantNode : PyNode → Bool
  | .constant => true
  | _ => false

def isPassNode : PyNode → Bool
  | .passStmt => true
  | _ => false

/-- The creator check shared by the Call branch and the Assign branch:
a patch-family call with a wraps keyword is a spy, any other creator
call is a mock. -/
def creatorCheck (c : DoubleCounts) (nm : List Char)
    (kws : List (Option (List Char) × PyNode)) : DoubleCounts :=
  if nm ∈ _MOCK_CREATORS then
    if ("patch".toList).isPrefixOf nm then
      if hasWrapsKw kws then { c with spies := c.spies + 1 }
      else { c with mocks := c.mocks + 1 }
    else { c with mocks := c.mocks + 1 }
  else c

/-- The first ast.walk loop of detect_test_doubles: the Call branch
(alias path first, with continue) and then the Assign branch for the
same node.  The dummy-assignment check sits inside the branch that
already requires the assigned value to be a Call, yet itself requires
the value to be a Constant, so it can never fire -- embedded exactly as
written. -/
def loop1Step (aliasMap : List (List Char × List Char)) (c : DoubleCounts)
    (node : PyNode) : DoubleCounts :=
  let c1 :=
    match node with
    | .call f _ kws =>
      match f with
      | .attribute (.name base) _ =>
        match aliasMap.lookup base with
        | some modname =>
          if modname == "unittest.mock".toList || modname == "mock".toList then
            { c with mocks := c.mocks + 1 }
          else creatorCheck c (_name f) kws
        | none => creatorCheck c (_name f) kws
      | _ => creatorCheck c (_name f) kws
    | _ => c
  match node with
  | .assign targets v =>
    match v with
    | .call vf _ vkws =>
      let c2 := creatorCheck c1 (_name vf) vkws
      if isConstantNode v then
        targets.foldl (fun cc t =>
          match t with
          | .name id =>
            if markerIn _DUMMY_MARKERS id then { cc with dummies := cc.dummies + 1 }
            else cc
          | _ => cc) c2
      else c2
    | _ => c1
  | _ => c1

/-- The second ast.walk loop of detect_test_doubles: fakes, stubs and
parameter dummies. -/
def loop2Step (c : DoubleCounts) (node : PyNode) : DoubleCounts :=
  let c1 :=
    match node with
    | .classDef nm body =>
      if markerIn _FAKE_MARKERS nm then
        if body.any (fun child =>
            match child with
            | .functionDef _ _ fbody => !(fbody.all isPassNode)
            | _ => false) then
          { c with fakes := c.fakes + 1 }
        else c
      else c
    | _ => c
  let c2 :=
    match node with
    | .functionDef nm _ body =>
      if markerIn _STUB_MARKERS nm && has_constant_return body then
        { c1 with stubs := c1.stubs + 1 }
      else c1
    | .asyncFunctionDef nm _ body =>
      if markerIn _STUB_MARKERS nm && has_constant_return body then
        { c1 with stubs := c1.stubs + 1 }
      else c1
    | _ => c1
  match node with
  | .functionDef _ args _ =>
    args.foldl (fun cc a =>
      if markerIn _DUMMY_MARKERS a then { cc with dummies := cc.dummies + 1 } else cc) c2
  | .asyncFunctionDef _ args _ =>
    args.foldl (fun cc a =>
      if markerIn _DUMMY_MARKERS a then { cc with dummies := cc.dummies + 1 } else cc) c2
  | _ => c2

/-- The counting of one parsed file inside detect_test_doubles (second
definition, the one that is in effect) from
src/test_analyzer/base/ast_metrics.py. -/
def detectFile (tree : List PyNode) : DoubleCounts :=
  let am := _count_alias_imports tree
  let nodes := walkList tree
  let c1 := nodes.foldl (loop1Step am) ⟨0, 0, 0, 0, 0⟩
  nodes.foldl loop2Step c1

/-- One file of the walked repository: the path and the parse result
(none models UnicodeDecodeError or SyntaxError, the file is skipped). -/
structure SourceFile where
  path : List Char
  parsed : Option (List PyNode)

/-- detect_test_doubles from src/test_analyzer/base/ast_metrics.py:
scan the .py test files, skip unparseable ones, accumulate the five
counters across the whole repository. -/
def detect_test_doubles (files : List SourceFile) : DoubleCounts :=
  files.foldl (fun c f =>
    if (".py".toList).isSuffixOf f.path && is_test_file f.path then
      match f.parsed with
      | some tree =>
        let d := detectFile tree
        { mocks := c.mocks + d.mocks, spies := c.spies + d.spies,
          stubs := c.stubs + d.stubs, fakes := c.fakes + d.fakes,
          dummies := c.dummies + d.dummies }
      | none => c
    else c) ⟨0, 0, 0, 0, 0⟩

/-- A test file whose body is the single statement dummy = 1. -/
def exDummyAssign : List SourceFile :=
  [ { path := "tests/test_d.py".toList,
      parsed := some [.assign [.name "dummy".toList] .constant] } ]

/-- A test file defining def f(dummy_arg): pass. -/
def exDummyParam : List SourceFile :=
  [ { path := "tests/test_d.py".toList,
      parsed := some [.functionDef "f".toList ["dummy_arg".toList] [.passStmt]] } ]

/-! ### Theorems -/

theorem monthKey_mono {a b : Date} (h : Date.Le a b) (ha : ValidDate a) (hb : ValidDate b) :
    monthKey a ≤ monthKey b := by
  unfold Date.Le at h; unfold ValidDate at ha hb; unfold monthKey; omega

theorem yearKey_mono {a b : Date} (h : Date.Le a b) : yearKey a ≤ yearKey b := by
  unfold Date.Le at h; unfold yearKey; omega

theorem keyRow_period (keyOf : Date → Nat) (items : List SnapRecord) (p : Nat) :
    (keyRow keyOf items p).period = p := by
  unfold keyRow
  cases (items.filter (fun r => keyOf r.date == p)).getLast? <;> rfl

theorem filter_eq_takeWhile_key (keyOf : Date → Nat) (p : Nat) (items : List SnapRecord)
    (hp : items.Pairwise (fun a b => keyOf a.date ≤ keyOf b.date))
    (hge : ∀ r ∈ items, p ≤ keyOf r.date) :
    items.filter (fun r => keyOf r.date == p) = items.takeWhile (fun r => keyOf r.date == p) := by
  induction items with
  | nil => rfl
  | cons a l ih =>
    rw [List.pairwise_cons] at hp
    rw [List.filter_cons, List.takeWhile_cons]
    by_cases h : keyOf a.date = p
    · have htrue : (keyOf a.date == p) = true := by simp [h]
      rw [htrue, if_pos rfl, if_pos rfl,
        ih hp.2 (fun r hr => hge r (List.mem_cons_of_mem a hr))]
    · have hfalse : (keyOf a.date == p) = false := by simp [h]
      rw [hfalse]
      simp only [Bool.false_eq_true, if_false]
      apply List.filter_eq_nil_iff.mpr
      intro x hx
      have hax : keyOf a.date ≤ keyOf x.date := hp.1 x hx
      have hap : p < keyOf a.date :=
        lt_of_le_of_ne (hge a (List.mem_cons_self a l)) (fun e => h e.symm)
      simp only [beq_iff_eq]
      omega

theorem lookup_eq_none_of_keys_lt (p : Nat) (m : List (Nat × SnapRecord))
    (h : ∀ e ∈ m, e.1 < p) : m.lookup p = none := by
  induction m with
  | nil => rfl
  | cons e t ih =>
    obtain ⟨k, v⟩ := e
    have hk : k < p := h (k, v) (List.mem_cons_self _ _)
    have hne : (p == k) = false := by simp; omega
    rw [List.lookup_cons, hne]
    exact ih fun e he => h e (List.mem_cons_of_mem _ he)

theorem dropWhile_key_succ_le (keyOf : Date → Nat) (p : Nat) (items : List SnapRecord)
    (hp : items.Pairwise (fun a b => keyOf a.date ≤ keyOf b.date))
    (hge : ∀ r ∈ items, p ≤ keyOf r.date) :
    ∀ r ∈ items.dropWhile (fun r => keyOf r.date == p), p + 1 ≤ keyOf r.date := by
  induction items with
  | nil => intro r hr; simp [List.dropWhile] at hr
  | cons a l ih =>
    rw [List.pairwise_cons] at hp
    rw [List.dropWhile_cons]
    by_cases h : keyOf a.date = p
    · have htrue : (keyOf a.date == p) = true := by simp [h]
      rw [htrue]
      simp only [if_true]
      exact ih hp.2 (fun r hr => hge r (List.mem_cons_of_mem a hr))
    · have hfalse : (keyOf a.date == p) = false := by simp [h]
      rw [hfalse]
      simp only [Bool.false_eq_true, if_false]
      intro r hr
      have hap : p < keyOf a.date :=
        lt_of_le_of_ne (hge a (List.mem_cons_self a l)) (fun e => h e.symm)
      rcases List.mem_cons.mp hr with rfl | hr'
      · omega
      · have := hp.1 r hr'; omega

theorem snapLoop_eq (keyOf : Date → Nat) (n : Nat) :
    ∀ (p : Nat) (items : List SnapRecord) (lastSnap : List (Nat × SnapRecord)),
      items.Pairwise (fun a b => keyOf a.date ≤ keyOf b.date) →
      (∀ r ∈ items, p ≤ keyOf r.date) →
      (∀ e ∈ lastSnap, e.1 < p) →
      snapLoop keyOf (List.range' p n) items lastSnap
        = (List.range' p n).map (keyRow keyOf items) := by
  induction n with
  | zero => intro p items lastSnap _ _ _; rfl
  | succ n ih =>
    intro p items lastSnap hp hge hlt
    have hfilter : items.filter (fun r => keyOf r.date == p)
        = items.takeWhile (fun r => keyOf r.date == p) :=
      filter_eq_takeWhile_key keyOf p items hp hge
    have hp_rem : (items.dropWhile (fun r => keyOf r.date == p)).Pairwise
        (fun a b => keyOf a.date ≤ keyOf b.date) :=
      List.Pairwise.sublist (List.dropWhile_sublist _) hp
    have hge_rem := dropWhile_key_succ_le keyOf p items hp hge
    have hcongr : (List.range' (p + 1) n).map (keyRow keyOf items)
        = (List.range' (p + 1) n).map
            (keyRow keyOf (items.dropWhile (fun r => keyOf r.date == p))) := by
      apply List.map_congr_left
      intro q hq
      have hq1 : p + 1 ≤ q := (List.mem_range'_1.mp hq).1
      unfold keyRow
      have heq : items.filter (fun r => keyOf r.date == q)
          = (items.dropWhile (fun r => keyOf r.date == p)).filter
              (fun r => keyOf r.date == q) := by
        conv_lhs => rw [← List.takeWhile_append_dropWhile (fun r => keyOf r.date == p) items]
        rw [List.filter_append]
        have hnil : (items.takeWhile (fun r => keyOf r.date == p)).filter
            (fun r => keyOf r.date == q) = [] := by
          apply List.filter_eq_nil_iff.mpr
          intro x hx
          have hxp := List.mem_takeWhile_imp hx
          simp only [beq_iff_eq] at hxp ⊢
          omega
        rw [hnil, List.nil_append]
      rw [heq]
    rw [List.range'_succ]
    cases hin : (items.takeWhile (fun r => keyOf r.date == p)).getLast? with
    | some r =>
      have hlt' : ∀ e ∈ ((p, r) :: lastSnap), e.1 < p + 1 := by
        intro e he
        rcases List.mem_cons.mp he with rfl | he'
        · omega
        · have := hlt e he'; omega
      have hlook : List.lookup p ((p, r) :: lastSnap) = some r := by
        simp [List.lookup_cons]
      simp only [snapLoop, hin, hlook, List.map_cons]
      congr 1
      · unfold keyRow
        rw [hfilter, hin]
      · rw [ih (p + 1) _ _ hp_rem hge_rem hlt']
        exact hcongr.symm
    | none =>
      have hlook : lastSnap.lookup p = none := lookup_eq_none_of_keys_lt p lastSnap hlt
      have hlt' : ∀ e ∈ lastSnap, e.1 < p + 1 := by intro e he; have := hlt e he; omega
      simp only [snapLoop, hin, hlook, List.map_cons]
      congr 1
      · unfold keyRow
        rw [hfilter, hin]
      · rw [ih (p + 1) _ _ hp_rem hge_rem hlt']
        exact hcongr.symm

theorem sortByDate_perm (raw : List SnapRecord) : (sortByDate raw).Perm raw :=
  List.perm_insertionSort snapRecLe raw

theorem sortByDate_sorted (raw : List SnapRecord) : (sortByDate raw).Sorted snapRecLe :=
  List.sorted_insertionSort snapRecLe raw

theorem mem_sortByDate {r : SnapRecord} {raw : List SnapRecord} :
    r ∈ sortByDate raw ↔ r ∈ raw :=
  (sortByDate_perm raw).mem_iff

theorem sortByDate_ne_nil {raw : List SnapRecord} (h : raw ≠ []) : sortByDate raw ≠ [] := by
  intro hs
  apply h
  have hperm := sortByDate_perm raw
  rw [hs] at hperm
  exact hperm.symm.eq_nil

theorem sorted_monthKey_pairwise (raw : List SnapRecord)
    (hv : ∀ r ∈ raw, ValidDate r.date) :
    (sortByDate raw).Pairwise (fun a b => monthKey a.date ≤ monthKey b.date) := by
  apply List.Pairwise.imp_of_mem ?_ (sortByDate_sorted raw)
  intro a b ha hb hr
  exact monthKey_mono hr (hv a (mem_sortByDate.mp ha)) (hv b (mem_sortByDate.mp hb))

theorem sorted_yearKey_pairwise (raw : List SnapRecord) :
    (sortByDate raw).Pairwise (fun a b => yearKey a.date ≤ yearKey b.date) := by
  apply List.Pairwise.imp_of_mem ?_ (sortByDate_sorted raw)
  intro a b _ _ hr
  exact yearKey_mono hr

theorem getLastI_cons_eq_getLast (x : SnapRecord) (xs : List SnapRecord) :
    (x :: xs).getLastI = (x :: xs).getLast (List.cons_ne_nil x xs) := by
  rw [List.getLastI_eq_getLast?, List.getLast?_eq_getLast (x :: xs) (List.cons_ne_nil x xs)]

theorem pairwise_rel_getLast {α : Type} {R : α → α → Prop} :
    ∀ (l : List α) (h : l ≠ []) (_ : l.Pairwise R) (x : α), x ∈ l →
      x = l.getLast h ∨ R x (l.getLast h) := by
  intro l
  induction l with
  | nil => intro h; exact absurd rfl h
  | cons a t ih =>
    intro h hp x hx
    cases t with
    | nil =>
      left
      simp only [List.mem_singleton] at hx
      simp [hx, List.getLast]
    | cons b t2 =>
      rw [List.pairwise_cons] at hp
      have hgl : (a :: b :: t2).getLast h = (b :: t2).getLast (List.cons_ne_nil b t2) :=
        List.getLast_cons (List.cons_ne_nil b t2)
      rcases List.mem_cons.mp hx with rfl | hx'
      · right
        rw [hgl]
        exact hp.1 _ (List.getLast_mem _)
      · rw [hgl]
        exact ih (List.cons_ne_nil b t2) hp.2 x hx'

/-- Shared characterization of the monthly snapshot aggregator: one output
row per month index in the inclusive span of the sorted input, each row
being the last record of its month or an explicit zero row. -/
theorem monthly_rows_spec (raw : List SnapRecord) (hne : raw ≠ [])
    (hv : ∀ r ∈ raw, ValidDate r.date) :
    aggregate_snapshots_monthly raw =
      (List.range' (monthKey (sortByDate raw).headI.date)
        (monthKey (sortByDate raw).getLastI.date + 1
          - monthKey (sortByDate raw).headI.date)).map
        (keyRow monthKey (sortByDate raw)) := by
  have hp := sorted_monthKey_pairwise raw hv
  obtain ⟨x, xs, hxs⟩ : ∃ x xs, sortByDate raw = x :: xs := by
    cases h : sortByDate raw with
    | nil => exact absurd h (sortByDate_ne_nil hne)
    | cons x xs => exact ⟨x, xs, rfl⟩
  unfold aggregate_snapshots_monthly
  rw [hxs] at hp ⊢
  apply snapLoop_eq
  · exact hp
  · intro r hr
    rcases List.mem_cons.mp hr with rfl | hr'
    · exact le_refl _
    · exact (List.pairwise_cons.mp hp).1 r hr'
  · intro e he
    exact absurd he (List.not_mem_nil e)

/-- Shared characterization of the yearly snapshot aggregator. -/
theorem yearly_rows_spec (raw : List SnapRecord) (hne : raw ≠ []) :
    aggregate_snapshots_yearly raw =
      (List.range' (yearKey (sortByDate raw).headI.date)
        (yearKey (sortByDate raw).getLastI.date + 1
          - yearKey (sortByDate raw).headI.date)).map
        (keyRow yearKey (sortByDate raw)) := by
  have hp := sorted_yearKey_pairwise raw
  obtain ⟨x, xs, hxs⟩ : ∃ x xs, sortByDate raw = x :: xs := by
    cases h : sortByDate raw with
    | nil => exact absurd h (sortByDate_ne_nil hne)
    | cons x xs => exact ⟨x, xs, rfl⟩
  unfold aggregate_snapshots_yearly
  rw [hxs] at hp ⊢
  apply snapLoop_eq
  · exact hp
  · intro r hr
    rcases List.mem_cons.mp hr with rfl | hr'
    · exact le_refl _
    · exact (List.pairwise_cons.mp hp).1 r hr'
  · intro e he
    exact absurd he (List.not_mem_nil e)

theorem map_period_keyRow (keyOf : Date → Nat) (items : List SnapRecord) (l : List Nat) :
    l.map (SnapRow.period ∘ keyRow keyOf items) = l := by
  induction l with
  | nil => rfl
  | cons q t ih =>
    rw [List.map_cons, ih]
    congr 1
    exact keyRow_period keyOf items q

/-- C1 counterexample: with records in January and March 2021 only, the
output of aggregate_snapshots_monthly has a ZERO row for February
(period index 2021*12+1), not a copy of January's last record as the
claim (last-observation-carried-forward) predicts. -/
theorem c1_counterexample :
    aggregate_snapshots_monthly exJanMar =
      [ { period := 2021 * 12 + 0, prod_files := 5, test_files := 3 },
        { period := 2021 * 12 + 1, prod_files := 0, test_files := 0 },
        { period := 2021 * 12 + 2, prod_files := 7, test_files := 4 } ] ∧
    (aggregate_snapshots_monthly exJanMar)[1]? ≠
      some { period := 2021 * 12 + 1, prod_files := 5, test_files := 3 } := by
  decide

/-- C1 (amended): for every non-empty input list of dated snapshot
records, monthly snapshot aggregation produces one output row per month
in the span; a month with at least one record receives that month's
chronologically last record, while a month containing no input record
receives a zero-valued synthetic row (no last-observation carry-forward
across empty months): for records in January and March only, the
February row is the zero row. -/
theorem c1_snapshot_monthly_rows (raw : List SnapRecord) (hne : raw ≠ [])
    (hv : ∀ r ∈ raw, ValidDate r.date) :
    aggregate_snapshots_monthly raw =
      (List.range' (monthKey (sortByDate raw).headI.date)
        (monthKey (sortByDate raw).getLastI.date + 1
          - monthKey (sortByDate raw).headI.date)).map
        (keyRow monthKey (sortByDate raw)) :=
  monthly_rows_spec raw hne hv

theorem c1_snapshot_monthly_rows_witness :
    (exJanMar ≠ [] ∧ ∀ r ∈ exJanMar, ValidDate r.date) ∧
    aggregate_snapshots_monthly exJanMar =
      (List.range' (monthKey (sortByDate exJanMar).headI.date)
        (monthKey (sortByDate exJanMar).getLastI.date + 1
          - monthKey (sortByDate exJanMar).headI.date)).map
        (keyRow monthKey (sortByDate exJanMar)) :=
  ⟨⟨by decide, by decide⟩, c1_snapshot_monthly_rows exJanMar (by decide) (by decide)⟩

/-- C6: for every non-empty input, the period keys of snapshot
aggregation output form an unbroken, gap-free, ascending monthly
(respectively yearly) sequence covering the full inclusive span from the
earliest input date's period (the minimal period key a) to the latest
input date's period (the maximal period key b), including periods with
no input record. -/
theorem c6_contiguous_periods (raw : List SnapRecord) (hne : raw ≠ [])
    (hv : ∀ r ∈ raw, ValidDate r.date) :
    (∀ a b : Nat, (∃ r ∈ raw, monthKey r.date = a) → (∀ r ∈ raw, a ≤ monthKey r.date) →
        (∃ r ∈ raw, monthKey r.date = b) → (∀ r ∈ raw, monthKey r.date ≤ b) →
        (aggregate_snapshots_monthly raw).map SnapRow.period = List.range' a (b + 1 - a)) ∧
    (∀ a b : Nat, (∃ r ∈ raw, yearKey r.date = a) → (∀ r ∈ raw, a ≤ yearKey r.date) →
        (∃ r ∈ raw, yearKey r.date = b) → (∀ r ∈ raw, yearKey r.date ≤ b) →
        (aggregate_snapshots_yearly raw).map SnapRow.period = List.range' a (b + 1 - a)) := by
  obtain ⟨x, xs, hxs⟩ : ∃ x xs, sortByDate raw = x :: xs := by
    cases h : sortByDate raw with
    | nil => exact absurd h (sortByDate_ne_nil hne)
    | cons x xs => exact ⟨x, xs, rfl⟩
  have hx_raw : x ∈ raw := mem_sortByDate.mp (hxs ▸ List.mem_cons_self x xs)
  have hlast_raw : (x :: xs).getLast (List.cons_ne_nil x xs) ∈ raw := by
    apply mem_sortByDate.mp
    rw [hxs]
    exact List.getLast_mem _
  constructor
  · rintro a b ⟨ra, hra, hra2⟩ ha2 ⟨rb, hrb, hrb2⟩ hb2
    have hp := sorted_monthKey_pairwise raw hv
    rw [hxs] at hp
    rw [monthly_rows_spec raw hne hv, List.map_map,
      map_period_keyRow monthKey (sortByDate raw)]
    have hfirst : monthKey (sortByDate raw).headI.date = a := by
      rw [hxs]
      simp only [List.headI]
      apply le_antisymm
      · have hmem : ra ∈ x :: xs := by rw [← hxs]; exact mem_sortByDate.mpr hra
        rcases List.mem_cons.mp hmem with h | h'
        · rw [← hra2, h]
        · rw [← hra2]
          exact (List.pairwise_cons.mp hp).1 ra h'
      · exact ha2 x hx_raw
    have hlastk : monthKey (sortByDate raw).getLastI.date = b := by
      rw [hxs, getLastI_cons_eq_getLast]
      apply le_antisymm
      · exact hb2 _ hlast_raw
      · have hmem : rb ∈ x :: xs := by rw [← hxs]; exact mem_sortByDate.mpr hrb
        rcases pairwise_rel_getLast (x :: xs) (List.cons_ne_nil x xs) hp rb hmem with heq | hrel
        · rw [← hrb2, heq]
        · rw [← hrb2]
          exact hrel
    rw [hfirst, hlastk]
  · rintro a b ⟨ra, hra, hra2⟩ ha2 ⟨rb, hrb, hrb2⟩ hb2
    have hp := sorted_yearKey_pairwise raw
    rw [hxs] at hp
    rw [yearly_rows_spec raw hne, List.map_map,
      map_period_keyRow yearKey (sortByDate raw)]
    have hfirst : yearKey (sortByDate raw).headI.date = a := by
      rw [hxs]
      simp only [List.headI]
      apply le_antisymm
      · have hmem : ra ∈ x :: xs := by rw [← hxs]; exact mem_sortByDate.mpr hra
        rcases List.mem_cons.mp hmem with h | h'
        · rw [← hra2, h]
        · rw [← hra2]
          exact (List.pairwise_cons.mp hp).1 ra h'
      · exact ha2 x hx_raw
    have hlastk : yearKey (sortByDate raw).getLastI.date = b := by
      rw [hxs, getLastI_cons_eq_getLast]
      apply le_antisymm
      · exact hb2 _ hlast_raw
      · have hmem : rb ∈ x :: xs := by rw [← hxs]; exact mem_sortByDate.mpr hrb
        rcases pairwise_rel_getLast (x :: xs) (List.cons_ne_nil x xs) hp rb hmem with heq | hrel
        · rw [← hrb2, heq]
        · rw [← hrb2]
          exact hrel
    rw [hfirst, hlastk]

theorem c6_contiguous_periods_witness :
    (aggregate_snapshots_monthly exJanMar).map SnapRow.period =
      List.range' (2021 * 12 + 0) (2021 * 12 + 2 + 1 - (2021 * 12 + 0)) ∧
    (aggregate_snapshots_yearly exJanMar).map SnapRow.period =
      List.range' 2021 (2021 + 1 - 2021) :=
  ⟨(c6_contiguous_periods exJanMar (by decide) (by decide)).1
      (2021 * 12 + 0) (2021 * 12 + 2) (by decide) (by decide) (by decide) (by decide),
    (c6_contiguous_periods exJanMar (by decide) (by decide)).2
      2021 2021 (by decide) (by decide) (by decide) (by decide)⟩

theorem keySetEq_iff_mem {a b : List (List Char)} :
    keySetEq a b = true ↔ ∀ k, k ∈ a ↔ k ∈ b := by
  unfold keySetEq
  rw [Bool.and_eq_true, List.all_eq_true, List.all_eq_true]
  constructor
  · rintro ⟨h1, h2⟩ k
    constructor
    · intro hk; have := h1 k hk; simpa using this
    · intro hk; have := h2 k hk; simpa using this
  · intro h
    constructor
    · intro k hk
      simpa using (h k).mp hk
    · intro k hk
      simpa using (h k).mpr hk

/-- C2: additive aggregation (monthly and yearly) raises ValueError and
produces no output whenever two input records expose different
metric-key sets; it never silently skips the mismatching record. -/
theorem c2_additive_key_mismatch_error (raw : List RawStat) (r1 r2 : RawStat)
    (h1 : r1 ∈ raw) (h2 : r2 ∈ raw)
    (hne : keySetEq (keysOf r1) (keysOf r2) = false) :
    aggregate_stats_monthly raw = .error ("Inconsistent metric keys in raw_stats".toList) ∧
    aggregate_stats_yearly raw = .error ("Inconsistent metric keys in raw_stats".toList) := by
  cases raw with
  | nil => cases h1
  | cons first rest =>
    have hall : ((first :: rest).all (fun it => keySetEq (keysOf it) (keysOf first))) = false := by
      cases hcase : ((first :: rest).all (fun it => keySetEq (keysOf it) (keysOf first))) with
      | false => rfl
      | true =>
        exfalso
        rw [List.all_eq_true] at hcase
        have e1 := keySetEq_iff_mem.mp (hcase r1 h1)
        have e2 := keySetEq_iff_mem.mp (hcase r2 h2)
        have : keySetEq (keysOf r1) (keysOf r2) = true :=
          keySetEq_iff_mem.mpr (fun k => (e1 k).trans (e2 k).symm)
        rw [this] at hne
        cases hne
    constructor
    · simp [aggregate_stats_monthly, hall]
    · simp [aggregate_stats_yearly, hall]

theorem c2_additive_key_mismatch_error_witness :
    aggregate_stats_monthly exMismatch
      = .error ("Inconsistent metric keys in raw_stats".toList) ∧
    aggregate_stats_yearly exMismatch
      = .error ("Inconsistent metric keys in raw_stats".toList) :=
  c2_additive_key_mismatch_error exMismatch
    { date := ⟨2021, 1, 5, 0⟩, metrics := [("a".toList, 1), ("b".toList, 2)] }
    { date := ⟨2021, 1, 6, 0⟩, metrics := [("a".toList, 1), ("b".toList, 2), ("c".toList, 3)] }
    (by decide) (by decide) (by decide)

theorem lookup_none_iff_not_mem_keys {β : Type} (p : Nat) (m : List (Nat × β)) :
    m.lookup p = none ↔ p ∉ m.map Prod.fst := by
  induction m with
  | nil => simp
  | cons e t ih =>
    obtain ⟨k, v⟩ := e
    by_cases h : p = k
    · subst h
      simp [List.lookup_cons]
    · have hb : (p == k) = false := by simp [h]
      simp [List.lookup_cons, hb, h, ih]

theorem lookup_of_mem_nodup {β : Type} {m : List (Nat × β)} {k : Nat} {v : β}
    (hnd : (m.map Prod.fst).Nodup) (hmem : (k, v) ∈ m) : m.lookup k = some v := by
  induction m with
  | nil => cases hmem
  | cons e t ih =>
    obtain ⟨k1, v1⟩ := e
    rw [List.map_cons, List.nodup_cons] at hnd
    rcases List.mem_cons.mp hmem with heq | hmem'
    · cases heq
      simp [List.lookup_cons]
    · have hne : k ≠ k1 := by
        intro h
        subst h
        exact hnd.1 (List.mem_map.mpr ⟨(k, v), hmem', rfl⟩)
      have hb : (k == k1) = false := by simp [hne]
      rw [List.lookup_cons, hb]
      exact ih hnd.2 hmem'

theorem dictSet_keys (agg : List (Nat × List (List Char × ℚ))) (p : Nat)
    (row : List (List Char × ℚ)) :
    (dictSet agg p row).map Prod.fst = agg.map Prod.fst := by
  unfold dictSet
  rw [List.map_map]
  apply List.map_congr_left
  intro e _
  by_cases h : e.1 = p
  · simp [Function.comp, h]
  · simp [Function.comp, h]

theorem dictSet_lookup_self (agg : List (Nat × List (List Char × ℚ))) (p : Nat)
    (row cur : List (List Char × ℚ)) (h : agg.lookup p = some cur) :
    (dictSet agg p row).lookup p = some row := by
  induction agg with
  | nil => simp at h
  | cons e t ih =>
    obtain ⟨k, v⟩ := e
    by_cases hk : k = p
    · subst hk
      simp [dictSet, List.lookup_cons]
    · have hb : (p == k) = false := by simp [Ne.symm hk]
      rw [List.lookup_cons, hb] at h
      have hstep : dictSet ((k, v) :: t) p row = (k, v) :: dictSet t p row := by
        simp [dictSet, hk]
      rw [hstep, List.lookup_cons, hb]
      exact ih h

theorem dictSet_lookup_ne (agg : List (Nat × List (List Char × ℚ))) (p : Nat)
    (row : List (List Char × ℚ)) (q : Nat) (hq : q ≠ p) :
    (dictSet agg p row).lookup q = agg.lookup q := by
  induction agg with
  | nil => rfl
  | cons e t ih =>
    obtain ⟨k, v⟩ := e
    by_cases hk : k = p
    · subst hk
      have hb : (q == k) = false := by simp [hq]
      have hstep : dictSet ((k, v) :: t) k row = (k, row) :: dictSet t k row := by
        simp [dictSet]
      rw [hstep, List.lookup_cons, hb, List.lookup_cons, hb]
      exact ih
    · have hstep : dictSet ((k, v) :: t) p row = (k, v) :: dictSet t p row := by
        simp [dictSet, hk]
      rw [hstep, List.lookup_cons, List.lookup_cons]
      cases hqk : q == k
      · exact ih
      · rfl

theorem foldAgg_keys_nodup (keyOf : Date → Nat) (expected : List (List Char)) :
    ∀ (raw : List RawStat) (agg : List (Nat × List (List Char × ℚ))),
      (agg.map Prod.fst).Nodup → ((foldAgg keyOf expected raw agg).map Prod.fst).Nodup := by
  intro raw
  induction raw with
  | nil => intro agg h; exact h
  | cons item rest ih =>
    intro agg h
    simp only [foldAgg]
    cases hl : agg.lookup (keyOf item.date) with
    | some cur =>
      apply ih
      rw [dictSet_keys]
      exact h
    | none =>
      apply ih
      rw [List.map_append]
      rw [List.nodup_append]
      refine ⟨h, List.nodup_singleton _, ?_⟩
      intro a ha hb
      simp only [List.map_cons, List.map_nil, List.mem_singleton] at hb
      subst hb
      exact (lookup_none_iff_not_mem_keys _ _).mp hl ha

theorem foldAgg_lookup (keyOf : Date → Nat) (expected : List (List Char)) (p : Nat) :
    ∀ (raw : List RawStat) (agg : List (Nat × List (List Char × ℚ))),
      (foldAgg keyOf expected raw agg).lookup p =
        match agg.lookup p with
        | some cur => some (sumInto cur (raw.filter (fun it => keyOf it.date == p)))
        | none =>
          if raw.filter (fun it => keyOf it.date == p) = [] then none
          else some (sumInto (zeroMetrics expected) (raw.filter (fun it => keyOf it.date == p))) := by
  intro raw
  induction raw with
  | nil =>
    intro agg
    simp only [foldAgg, List.filter_nil]
    cases hl : agg.lookup p with
    | some cur => rfl
    | none => rfl
  | cons item rest ih =>
    intro agg
    simp only [foldAgg]
    by_cases hpq : keyOf item.date = p
    · have hfc : (item :: rest).filter (fun it => keyOf it.date == p)
          = item :: rest.filter (fun it => keyOf it.date == p) := by
        rw [List.filter_cons]
        simp [hpq]
      cases hl : agg.lookup (keyOf item.date) with
      | some cur =>
        rw [ih]
        rw [hpq] at hl
        rw [hpq, dictSet_lookup_self agg p (addMetrics cur item) cur hl]
        rw [hl, hfc]
        rfl
      | none =>
        rw [ih]
        rw [hpq] at hl
        rw [hpq]
        have happ : (agg ++ [(p, addMetrics (zeroMetrics expected) item)]).lookup p
            = some (addMetrics (zeroMetrics expected) item) := by
          rw [List.lookup_append, hl, List.lookup_cons]
          simp
        rw [happ, hl, hfc]
        simp only [List.cons_ne_nil, if_false]
        rfl
    · have hfc : (item :: rest).filter (fun it => keyOf it.date == p)
          = rest.filter (fun it => keyOf it.date == p) := by
        rw [List.filter_cons]
        simp [hpq]
      cases hl : agg.lookup (keyOf item.date) with
      | some cur =>
        rw [ih]
        rw [dictSet_lookup_ne agg (keyOf item.date) (addMetrics cur item) p
          (Ne.symm hpq)]
        rw [hfc]
      | none =>
        rw [ih]
        have happ : (agg ++ [(keyOf item.date, addMetrics (zeroMetrics expected) item)]).lookup p
            = agg.lookup p := by
          rw [List.lookup_append, List.lookup_cons]
          have hb : (p == keyOf item.date) = false := by
            simp [Ne.symm hpq]
          rw [hb]
          simp [Option.or_none]
        rw [happ, hfc]

theorem sumInto_shape (e : List (List Char)) (s : List Char → ℚ) (l : List RawStat) :
    sumInto (e.map (fun k => (k, s k))) l
      = e.map (fun k => (k, s k + (l.map (fun it => getMetric it.metrics k)).sum)) := by
  induction l generalizing s with
  | nil =>
    unfold sumInto
    rw [List.foldl_nil]
    apply List.map_congr_left
    intro k _
    simp
  | cons it rest ih =>
    have h1 : addMetrics (e.map (fun k => (k, s k))) it
        = e.map (fun k => (k, s k + getMetric it.metrics k)) := by
      unfold addMetrics
      rw [List.map_map]
      apply List.map_congr_left
      intro k _
      rfl
    unfold sumInto at ih ⊢
    rw [List.foldl_cons, h1, ih (fun k => s k + getMetric it.metrics k)]
    apply List.map_congr_left
    intro k _
    simp [add_assoc]

theorem sumInto_zero (e : List (List Char)) (l : List RawStat) :
    sumInto (zeroMetrics e) l
      = e.map (fun k => (k, (l.map (fun it => getMetric it.metrics k)).sum)) := by
  have h := sumInto_shape e (fun _ => 0) l
  unfold zeroMetrics
  rw [h]
  apply List.map_congr_left
  intro k _
  simp


theorem foldAgg_mem_keys (keyOf : Date → Nat) (expected : List (List Char))
    (raw : List RawStat) (p : Nat) :
    p ∈ (foldAgg keyOf expected raw []).map Prod.fst
      ↔ p ∈ raw.map (fun r => keyOf r.date) := by
  rw [← not_iff_not, ← lookup_none_iff_not_mem_keys,
    foldAgg_lookup keyOf expected p raw []]
  simp only [List.lookup_nil]
  by_cases hfil : raw.filter (fun it => keyOf it.date == p) = []
  · rw [if_pos hfil]
    constructor
    · intro _ hp
      obtain ⟨r, hr, hrp⟩ := List.mem_map.mp hp
      have hrf : r ∈ raw.filter (fun it => keyOf it.date == p) :=
        List.mem_filter.mpr ⟨hr, by simp [hrp]⟩
      rw [hfil] at hrf
      cases hrf
    · intro _
      rfl
  · rw [if_neg hfil]
    constructor
    · intro h
      cases h
    · intro hp
      exfalso
      apply hfil
      apply List.filter_eq_nil_iff.mpr
      intro it hit
      simp only [beq_iff_eq]
      intro he
      exact hp (List.mem_map.mpr ⟨it, hit, he⟩)

theorem foldAgg_entry_metrics (keyOf : Date → Nat) (expected : List (List Char))
    (raw : List RawStat) (entry : Nat × List (List Char × ℚ))
    (hmem : entry ∈ foldAgg keyOf expected raw []) :
    entry.2 = expected.map (fun k => (k, ((raw.filter (fun it => keyOf it.date == entry.1)).map
      (fun it => getMetric it.metrics k)).sum)) := by
  have hnodup : ((foldAgg keyOf expected raw []).map Prod.fst).Nodup :=
    foldAgg_keys_nodup keyOf expected raw [] (by simp)
  obtain ⟨k, v⟩ := entry
  have hlk : (foldAgg keyOf expected raw []).lookup k = some v :=
    lookup_of_mem_nodup hnodup hmem
  rw [foldAgg_lookup keyOf expected k raw []] at hlk
  simp only [List.lookup_nil] at hlk
  by_cases hfil : raw.filter (fun it => keyOf it.date == k) = []
  · rw [if_pos hfil] at hlk
    cases hlk
  · rw [if_neg hfil] at hlk
    have h2 := Option.some.inj hlk
    rw [← h2, sumInto_zero]

/-- C7: additive aggregation groups input records by period key derived
from the record's date and, for each period, outputs the field-wise sum
of every metric over the records of that period; two same-month records
with code_lines 10 / test_lines 5 and code_lines 3 / test_lines 7 yield
the monthly row code_lines 13 / test_lines 12. -/
theorem c7_additive_groups_and_sums :
    (∀ (raw : List RawStat) (rows : List AggRow),
        aggregate_stats_monthly raw = .ok rows →
          ((∀ p : Nat, p ∈ rows.map AggRow.period ↔ p ∈ raw.map (fun r => monthKey r.date)) ∧
            ∀ row ∈ rows, row.metrics = (expectedOf raw).map
              (fun k => (k, ((raw.filter (fun r => monthKey r.date == row.period)).map
                (fun r => getMetric r.metrics k)).sum)))) ∧
    aggregate_stats_monthly exSameMonth = .ok [exSameMonthRow] := by
  constructor
  · intro raw rows hok
    cases raw with
    | nil =>
      simp only [aggregate_stats_monthly] at hok
      have hrows : ([] : List AggRow) = rows := by injection hok
      subst hrows
      exact ⟨fun p => by simp, fun row hrow => absurd hrow (List.not_mem_nil row)⟩
    | cons first rest =>
      simp only [aggregate_stats_monthly] at hok
      by_cases hval : ((first :: rest).all (fun it => keySetEq (keysOf it) (keysOf first))) = true
      · rw [if_pos hval] at hok
        have hrows : (sortAgg (foldAgg monthKey (keysOf first) (first :: rest) [])).map
            (fun e => ({ period := e.1, metrics := e.2 } : AggRow)) = rows := by
          injection hok
        subst hrows
        have hperm : (sortAgg (foldAgg monthKey (keysOf first) (first :: rest) [])).Perm
            (foldAgg monthKey (keysOf first) (first :: rest) []) :=
          List.perm_insertionSort aggLe _
        constructor
        · intro p
          have hmapmap : ((sortAgg (foldAgg monthKey (keysOf first) (first :: rest) [])).map
              (fun e => ({ period := e.1, metrics := e.2 } : AggRow))).map AggRow.period
              = (sortAgg (foldAgg monthKey (keysOf first) (first :: rest) [])).map Prod.fst := by
            rw [List.map_map]
            apply List.map_congr_left
            intro e _
            rfl
          rw [hmapmap, (hperm.map Prod.fst).mem_iff]
          exact foldAgg_mem_keys monthKey (keysOf first) (first :: rest) p
        · intro row hrow
          obtain ⟨entry, hentry, hrow_eq⟩ := List.mem_map.mp hrow
          have hentry_m : entry ∈ foldAgg monthKey (keysOf first) (first :: rest) [] :=
            hperm.mem_iff.mp hentry
          have hmet := foldAgg_entry_metrics monthKey (keysOf first) (first :: rest)
            entry hentry_m
          rw [← hrow_eq]
          exact hmet
      · rw [if_neg hval] at hok
        cases hok
  · show aggregate_stats_monthly exSameMonth = .ok [exSameMonthRow]
    simp only [aggregate_stats_monthly, exSameMonth, exSameMonthRow, foldAgg, sortAgg,
      keysOf, keySetEq, zeroMetrics, addMetrics, getMetric, dictSet, monthKey,
      List.insertionSort, List.orderedInsert, List.lookup]
    simp
    norm_num

theorem c7_additive_groups_and_sums_witness :
    exSameMonthRow.metrics = (expectedOf exSameMonth).map
      (fun k => (k, ((exSameMonth.filter
        (fun r => monthKey r.date == exSameMonthRow.period)).map
        (fun r => getMetric r.metrics k)).sum)) :=
  (c7_additive_groups_and_sums.1 exSameMonth [exSameMonthRow]
    c7_additive_groups_and_sums.2).2 exSameMonthRow (List.mem_singleton.mpr rfl)

/-- C3 counterexample: src/test_foo.py has a filename component that
begins with test_ and the .py extension, yet the classifier returns
false, because the test_ prefix rule is applied to the whole path
string. -/
theorem c3_counterexample :
    ("test_".toList).isPrefixOf (basename ("src/test_foo.py".toList)) = true ∧
    ((".py".toList).isSuffixOf (pyLower ("src/test_foo.py".toList))) = true ∧
    is_test_file ("src/test_foo.py".toList) = false := by
  decide

/-- C3 (amended): the test_ prefix rule of the File Role Classifier
applies to the whole path string, not to its final filename component:
every path string that itself begins with test_ (case-insensitively)
and ends with the recognized source extension .py is classified Test.
A filename beginning with test_ inside a subdirectory is not matched by
the prefix rule (src/test_foo.py is not classified Test, per the
counterexample). -/
theorem c3_test_prefix_whole_path (p : List Char)
    (h1 : ("test_".toList).isPrefixOf (pyLower p) = true)
    (h2 : ((".py".toList).isSuffixOf (pyLower p)) = true) :
    is_test_file p = true := by
  simp at h1 h2
  simp [is_test_file]
  exact ⟨h2, Or.inr (Or.inl (Or.inl h1))⟩

theorem c3_test_prefix_whole_path_witness :
    (("test_".toList).isPrefixOf (pyLower ("test_x.py".toList)) = true ∧
      ((".py".toList).isSuffixOf (pyLower ("test_x.py".toList))) = true) ∧
    is_test_file ("test_x.py".toList) = true :=
  ⟨⟨by decide, by decide⟩,
    c3_test_prefix_whole_path ("test_x.py".toList) (by decide) (by decide)⟩

/-- C4: contrary to the claim, a test file that cannot be read does not
get skipped by analyze_tests_local: the except handler references the
undefined names filepath and e, so the handler raises NameError and the
whole scan aborts; the remaining files are never processed. -/
theorem c4_unreadable_file_aborts_scan :
    analyze_tests_local
      [ { name := "test_a.py".toList, lines := some 10 },
        { name := "test_b.py".toList, lines := none },
        { name := "test_c.py".toList, lines := some 20 } ]
      = .error .nameError := by
  decide

theorem delaysLoop_eq (pd : List (List Char × Int)) :
    ∀ (l : List (List Char × Int)) (acc : List Int),
      delaysLoop pd l acc
        = acc ++ (l.filterMap (matchedDelta pd)).filter (fun d => decide (0 ≤ d)) := by
  intro l
  induction l with
  | nil => intro acc; simp [delaysLoop]
  | cons tp rest ih =>
    intro acc
    rw [List.filterMap_cons]
    cases hm : matchedDelta pd tp with
    | none =>
      simp only [delaysLoop, hm]
      rw [ih]
    | some d =>
      simp only [delaysLoop, hm]
      by_cases hd : 0 ≤ d
      · rw [if_pos hd, ih, List.filter_cons]
        simp [hd]
      · rw [if_neg hd, ih, List.filter_cons]
        simp [hd]

/-- C5: for every commit history, compute_test_delay returns the mean,
rounded to 2 decimal places, of the non-negative whole-day differences
(test first-seen minus matched production first-seen) over all matched
pairs; a pair whose test file predates its production file is excluded
from the average without any error, and when no valid pairs exist the
average is absent -- not zero and not an error -- with a pair count of
0. -/
theorem c5_delay_mean (commits : List Commit) :
    compute_test_delay commits =
      { avg_delay_days :=
          if validDeltas commits = [] then none
          else some (roundTo 2
            (((validDeltas commits).sum : ℚ) / (validDeltas commits).length)),
        delay_count := (validDeltas commits).length } := by
  simp only [compute_test_delay, validDeltas]
  rw [delaysLoop_eq (prod_dates commits) (test_dates commits) []]
  rw [List.nil_append]

/-- C8: contrary to the claim, an assignment of a literal constant to a
dummy-named variable never increments the dummies counter: the check is
nested inside the branch that requires the assigned value to be a Call,
so the Constant test can never hold.  The parameter-name rule does
work: a function with parameter dummy_arg yields dummies = 1. -/
theorem c8_dummy_assignment_not_counted :
    (detect_test_doubles exDummyAssign).dummies = 0 ∧
    (detect_test_doubles exDummyParam).dummies = 1 := by
  decide

/-- C9: the stub constant-return check holds exactly when every
statement of the body is a Return of a literal constant, a nested
function/class definition, or a bare pass; a body return 1 passes, a
body return compute() fails, and a body with zero return statements
(empty or pass only) passes vacuously. -/
theorem c9_constant_return_characterization :
    (∀ body : List PyNode, has_constant_return body = body.all stmtOkConstRet) ∧
    has_constant_return [.ret (some .constant)] = true ∧
    has_constant_return [.ret (some (.call (.name "compute".toList) [] []))] = false ∧
    has_constant_return [] = true ∧
    has_constant_return [.passStmt] = true := by
  refine ⟨?_, by decide, by decide, by decide, by decide⟩
  intro body
  induction body with
  | nil => rfl
  | cons s rest ih =>
    cases s with
    | ret v =>
      cases v with
      | none => simp [has_constant_return, stmtOkConstRet]
      | some val => cases val <;> simp [has_constant_return, stmtOkConstRet, ih]
    | _ => simp [has_constant_return, stmtOkConstRet, ih]

/-- C10: a mock-creator call on the right-hand side of an assignment is
counted twice for that single statement -- once when ast.walk visits
the Call node, once more by the Assign branch -- so mocks (or spies for
a patch ... wraps call) grows by 2, while the same call as a bare
expression statement grows the counter by 1. -/
theorem c10_assigned_mock_call_double_counted (n t : List Char)
    (h1 : pyLower n ∈ _MOCK_CREATORS)
    (h2 : (("patch".toList).isPrefixOf (pyLower n)) = false) :
    (detectFile [.assign [.name t] (.call (.name n) [] [])]).mocks = 2 ∧
    (detectFile [.exprStmt (.call (.name n) [] [])]).mocks = 1 ∧
    (detectFile [.assign [.name "x".toList] (.call (.name "patch".toList) []
        [(some "wraps".toList, .constant)])]).spies = 2 ∧
    (detectFile [.exprStmt (.call (.name "patch".toList) []
        [(some "wraps".toList, .constant)])]).spies = 1 := by
  have h2p : ¬ (("patch".toList) <+: pyLower n) := by
    intro hc
    have hx := List.isPrefixOf_iff_prefix.mpr hc
    rw [h2] at hx
    cases hx
  refine ⟨?_, ?_, by decide, by decide⟩ <;>
    simp [detectFile, walkList, walkNode, walkKws, _count_alias_imports,
      loop1Step, loop2Step, creatorCheck, _name, isConstantNode, hasWrapsKw, h1, h2p]

theorem c10_assigned_mock_call_double_counted_witness :
    ((pyLower ("Mock".toList) ∈ _MOCK_CREATORS) ∧
      (("patch".toList).isPrefixOf (pyLower ("Mock".toList))) = false) ∧
    (detectFile [.assign [.name "x".toList]
        (.call (.name "Mock".toList) [] [])]).mocks = 2 ∧
    (detectFile [.exprStmt (.call (.name "Mock".toList) [] [])]).mocks = 1 ∧
    (detectFile [.assign [.name "x".toList] (.call (.name "patch".toList) []
        [(some "wraps".toList, .constant)])]).spies = 2 ∧
    (detectFile [.exprStmt (.call (.name "patch".toList) []
        [(some "wraps".toList, .constant)])]).spies = 1 :=
  ⟨⟨by decide, by decide⟩,
    c10_assigned_mock_call_double_counted ("Mock".toList) ("x".toList)
      (by decide) (by decide)⟩
